import Mathlib

/-!
# Director registry of the varnish agent's admin server

A shallow embedding of `server/server.go` (`NewServer`): the `getDirector`
closure, the five `/directors` handlers and the basic-auth `Validate`
callback, together with the properties of the registry that follow from them.

Modelling conventions
* a handler is a function of what the request brings (decoded body, path
  parameter) and of what the agent answers (`ins.GetDirectors()`, `ins.Save`);
* a handler returns the list of agent calls it made, in order, and either the
  response it wrote or the way it failed (a returned `error` or a runtime panic);
* Go `int` indices are `Int`; indexing out of range is a runtime panic.
-/

namespace Server

/-! ## Errors -/

/-- The `hes.Error` value: only the two fields the handlers determine. -/
structure HesError where
  StatusCode : Nat
  Message : String
deriving DecidableEq, Repr

/-- A Go `error` value: either one built by `hes.New`, or any other error
(the agent's, the JSON decoder's), kept by its text. -/
inductive GoError where
  | hes (e : HesError)
  | other (text : String)
deriving DecidableEq, Repr

/-- How a handler can fail: it returns `err`, or the runtime panics. -/
inductive Fault where
  | err (e : GoError)
  | indexOutOfRange (index : Int) (length : Nat)
deriving DecidableEq, Repr

/-- `hes.New(message)`: the library builds the error from the message alone and
gives it its default status code, which is not set anywhere in `server.go`; the
default is a parameter here. -/
def hesNew (defaultStatusCode : Nat) (message : String) : HesError :=
  { StatusCode := defaultStatusCode, Message := message }

/-- The status code that `hes.New` gives when none is asked for: the library's
default is `http.StatusBadRequest`. -/
def hesDefaultStatusCode : Nat := 400

/-- `errDirectorNotFound = hes.New("The director is not found")`. -/
def errDirectorNotFound (defaultStatusCode : Nat) : HesError :=
  hesNew defaultStatusCode "The director is not found"

/-- `errDirectorExists = hes.New("The director is exists")`. -/
def errDirectorExists (defaultStatusCode : Nat) : HesError :=
  hesNew defaultStatusCode "The director is exists"

/-- The error of the POST handler for an empty name:
`hes.New("The director's name can't be nil")`. -/
def errNameNil (defaultStatusCode : Nat) : HesError :=
  hesNew defaultStatusCode "The director's name can't be nil"

/-! ## Data model -/

/-- Modelled from the spec: `director.Director` is declared in the `director`
package, which is not part of `server.go`. The spec gives it a `name` and
"opaque pool-configuration fields" that the server never reads; they are kept
as an uninterpreted list of key/value pairs. -/
structure Director where
  Name : String
  fields : List (String × String)
deriving DecidableEq, Repr

/-- `director.Directors`, the slice of directors. -/
abbrev Directors := List Director

/-- The names of a collection, in order. -/
def names (s : Directors) : List String := s.map Director.Name

/-! ## The agent, as seen by one request -/

/-- The calls a handler makes on the agent. -/
inductive AgentCall where
  | getDirectors
  | save (s : Directors)
deriving DecidableEq, Repr

/-- What a handler writes on success. -/
inductive Response where
  | directorsBody (s : Directors)
  | directorBody (d : Director)
  | created (d : Director)
  | noContent
deriving DecidableEq, Repr

/-- The trace of one handler run: the agent calls made, in order, and the
response written (`ok`) or the failure (`error`). -/
structure Reply where
  calls : List AgentCall
  out : Except Fault Response

/-! ## `getDirector` -/

/-- The loop of `getDirector`: `for i, item := range s { if name == item.Name { index = i } }`,
started at position `i` with the current value of `index`. -/
def scan (name : String) : Directors → Int → Int → Int
  | [], _, index => index
  | item :: rest, i, index => scan name rest (i + 1) (if name = item.Name then i else index)

/-- `getDirector(name)`: fetch, then scan from `index = -1`. -/
def getDirector (fetch : Except GoError Directors) (name : String) :
    Except GoError (Directors × Int) :=
  match fetch with
  | .error e => .error e
  | .ok s => .ok (s, scan name s 0 (-1))

/-- Go's `s[index]`: the element, or a panic when the index is out of range. -/
def index (s : Directors) (i : Int) : Except Fault Director :=
  if i < 0 then .error (.indexOutOfRange i s.length)
  else match s[i.toNat]? with
    | some d => .ok d
    | none => .error (.indexOutOfRange i s.length)

/-- Go's `s[index] = d`. -/
def assign (s : Directors) (i : Int) (d : Director) : Except Fault Directors :=
  if i < 0 then .error (.indexOutOfRange i s.length)
  else if i.toNat < s.length then .ok (s.set i.toNat d)
  else .error (.indexOutOfRange i s.length)

/-- Go's `append(s[:index], s[index+1:]...)`. -/
def removeAt (s : Directors) (i : Int) : Except Fault Directors :=
  if i < 0 then .error (.indexOutOfRange i s.length)
  else if i.toNat < s.length then .ok (s.take i.toNat ++ s.drop (i.toNat + 1))
  else .error (.indexOutOfRange (i + 1) s.length)

/-! ## Sorting -/

/-- Modelled from the spec: `Directors.Less` is a method of the `director`
package, which is not part of `server.go`. The spec has the list "sorted by
name", so `Less(i, j)` compares the two names. -/
def Less (a b : Director) : Bool := decide (a.Name < b.Name)

/-- One insertion step of the sort: `d` passes the entries that are `Less` than
it and stops before the first one that is not, so it stays in front of the
entries of equal name that came after it. -/
def insertByLess (d : Director) : Directors → Directors
  | [] => [d]
  | x :: xs => if Less x d then x :: insertByLess d xs else d :: x :: xs

/-- `sort.Sort(s)`: the standard library reorders `s` through `Less` and `Swap`
only. Its insertion pass swaps two neighbours only when the right one is `Less`
than the left one, so entries of equal name keep the order they came in; it is
taken here as that insertion sort. -/
def sortSort : Directors → Directors
  | [] => []
  | x :: xs => insertByLess x (sortSort xs)

/-! ## Handlers -/

/-- `GET /directors`. -/
def listHandler (fetch : Except GoError Directors) : Reply :=
  match fetch with
  | .error e => ⟨[.getDirectors], .error (.err e)⟩
  | .ok s => ⟨[.getDirectors], .ok (.directorsBody (sortSort s))⟩

/-- `GET /directors/:name`. -/
def getHandler (fetch : Except GoError Directors) (name : String) : Reply :=
  match getDirector fetch name with
  | .error e => ⟨[.getDirectors], .error (.err e)⟩
  | .ok (s, i) =>
    match index s i with
    | .error f => ⟨[.getDirectors], .error f⟩
    | .ok d => ⟨[.getDirectors], .ok (.directorBody d)⟩

/-- `POST /directors`. `decoded` is the outcome of `json.Unmarshal(c.RequestBody, d)`. -/
def createHandler (defaultStatusCode : Nat) (decoded : Except GoError Director)
    (fetch : Except GoError Directors) (save : Directors → Option GoError) : Reply :=
  match decoded with
  | .error e => ⟨[], .error (.err e)⟩
  | .ok d =>
    if d.Name = "" then ⟨[], .error (.err (.hes (errNameNil defaultStatusCode)))⟩
    else
      match getDirector fetch d.Name with
      | .error e => ⟨[.getDirectors], .error (.err e)⟩
      | .ok (s, i) =>
        if i ≠ -1 then
          ⟨[.getDirectors], .error (.err (.hes (errDirectorExists defaultStatusCode)))⟩
        else
          match save (s ++ [d]) with
          | some e => ⟨[.getDirectors, .save (s ++ [d])], .error (.err e)⟩
          | none => ⟨[.getDirectors, .save (s ++ [d])], .ok (.created d)⟩

/-- `PATCH /directors/:name`. The decoded body gets `d.Name = c.Param("name")`. -/
def updateHandler (defaultStatusCode : Nat) (decoded : Except GoError Director)
    (name : String) (fetch : Except GoError Directors)
    (save : Directors → Option GoError) : Reply :=
  match decoded with
  | .error e => ⟨[], .error (.err e)⟩
  | .ok d0 =>
    let d : Director := { d0 with Name := name }
    match getDirector fetch d.Name with
    | .error e => ⟨[.getDirectors], .error (.err e)⟩
    | .ok (s, i) =>
      if i = -1 then
        ⟨[.getDirectors], .error (.err (.hes (errDirectorNotFound defaultStatusCode)))⟩
      else
        match assign s i d with
        | .error f => ⟨[.getDirectors], .error f⟩
        | .ok s1 =>
          match save s1 with
          | some e => ⟨[.getDirectors, .save s1], .error (.err e)⟩
          | none => ⟨[.getDirectors, .save s1], .ok .noContent⟩

/-- `DELETE /directors/:name`. -/
def deleteHandler (name : String) (fetch : Except GoError Directors)
    (save : Directors → Option GoError) : Reply :=
  match getDirector fetch name with
  | .error e => ⟨[.getDirectors], .error (.err e)⟩
  | .ok (s, i) =>
    if i = -1 then ⟨[.getDirectors], .ok .noContent⟩
    else
      match removeAt s i with
      | .error f => ⟨[.getDirectors], .error f⟩
      | .ok s1 =>
        match save s1 with
        | some e => ⟨[.getDirectors, .save s1], .error (.err e)⟩
        | none => ⟨[.getDirectors, .save s1], .ok .noContent⟩

/-! ## An agent that keeps what was saved -/

/-- The collection an agent holds after a run, when it held `st` before and
every `Save` replaces what it holds. -/
def held (st : Directors) : List AgentCall → Directors
  | [] => st
  | .getDirectors :: cs => held st cs
  | .save s :: cs => held s cs

/-- An agent whose `Save` always succeeds. -/
def saveOk : Directors → Option GoError := fun _ => none

/-- Run `Create` against an agent holding `st`: the new holding and the outcome. -/
def create (defaultStatusCode : Nat) (st : Directors) (d : Director) :
    Directors × Except Fault Response :=
  let r := createHandler defaultStatusCode (.ok d) (.ok st) saveOk
  (held st r.calls, r.out)

/-- Run `Update` against an agent holding `st`. -/
def update (defaultStatusCode : Nat) (st : Directors) (name : String) (d : Director) :
    Directors × Except Fault Response :=
  let r := updateHandler defaultStatusCode (.ok d) name (.ok st) saveOk
  (held st r.calls, r.out)

/-- Run `Delete` against an agent holding `st`. -/
def delete (st : Directors) (name : String) : Directors × Except Fault Response :=
  let r := deleteHandler name (.ok st) saveOk
  (held st r.calls, r.out)

/-- Run `Get` against an agent holding `st`. -/
def get (st : Directors) (name : String) : Except Fault Response :=
  (getHandler (.ok st) name).out

/-! ## Access guard -/

/-- `strings.Split(s, ":")` on the characters of `s`: the pieces between colons. -/
def splitColon : List Char → List (List Char)
  | [] => [[]]
  | c :: cs =>
    if c = ':' then [] :: splitColon cs
    else
      match splitColon cs with
      | [] => [[c]]
      | p :: ps => (c :: p) :: ps

/-- `strings.Split(auth, ":")`. -/
def stringsSplit (auth : String) : List String :=
  (splitColon auth.data).map String.mk

/-- The `Validate` callback given to `basicauth.New`; `none` is an index panic. -/
def Validate (authInfo : List String) (account pwd : String) : Option Bool :=
  match authInfo[0]? with
  | none => none
  | some user =>
    if account ≠ user then some false
    else if authInfo.length = 2 then
      match authInfo[1]? with
      | none => none
      | some pass => if pwd ≠ pass then some false else some true
    else some true

/-- What `authMid` does with a request. -/
inductive Guard where
  | next
  | unauthorized
  | panicked
deriving DecidableEq, Repr

/-- `authMid`: with `AUTH` empty it calls `c.Next()`; otherwise the basic-auth
middleware calls `Validate` on the supplied account and password and goes on
only when it answers true. -/
def authMid (auth : String) (account pwd : String) : Guard :=
  if auth ≠ "" then
    match Validate (stringsSplit auth) account pwd with
    | none => .panicked
    | some true => .next
    | some false => .unauthorized
  else .next

/-! ## The scan of `getDirector` -/

theorem scan_absent (name : String) (s : Directors) (i idx : Int)
    (h : ∀ x ∈ s, x.Name ≠ name) : scan name s i idx = idx := by
  induction s generalizing i idx with
  | nil => rfl
  | cons x xs ih =>
    have hx : ¬ name = x.Name := fun e => h x (List.mem_cons_self _ _) e.symm
    simp only [scan, if_neg hx]
    exact ih _ _ (fun y hy => h y (List.mem_cons_of_mem _ hy))

theorem scan_last (name : String) (pre : Directors) (x : Director) (post : Directors)
    (i idx : Int) (hx : x.Name = name) (hpost : ∀ y ∈ post, y.Name ≠ name) :
    scan name (pre ++ x :: post) i idx = i + pre.length := by
  induction pre generalizing i idx with
  | nil =>
    simp only [List.nil_append, scan, if_pos hx.symm, List.length_nil]
    rw [scan_absent name post _ _ hpost]
    simp
  | cons p ps ih =>
    show scan name (ps ++ x :: post) (i + 1) (if name = p.Name then i else idx)
      = i + ((p :: ps).length : Int)
    rw [ih, List.length_cons]
    push_cast
    ring

/-- A collection with an entry named `name` splits at the last such entry. -/
theorem split_last (name : String) (s : Directors) (h : ∃ x ∈ s, x.Name = name) :
    ∃ pre x post, s = pre ++ x :: post ∧ x.Name = name ∧ ∀ y ∈ post, y.Name ≠ name := by
  induction s with
  | nil => obtain ⟨x, hx, _⟩ := h; cases hx
  | cons a as ih =>
    by_cases hex : ∃ x ∈ as, x.Name = name
    · obtain ⟨pre, x, post, hs, hx, hpost⟩ := ih hex
      exact ⟨a :: pre, x, post, by rw [hs]; rfl, hx, hpost⟩
    · obtain ⟨x, hx, hxn⟩ := h
      rcases List.mem_cons.mp hx with rfl | hmem
      · exact ⟨[], x, as, rfl, hxn, fun y hy e => hex ⟨y, hy, e⟩⟩
      · exact absurd ⟨x, hmem, hxn⟩ hex

/-- With distinct names, nothing before the split point carries the name either. -/
theorem nodup_split (name : String) (pre : Directors) (x : Director) (post : Directors)
    (hs : (names (pre ++ x :: post)).Nodup) (hx : x.Name = name) :
    (∀ y ∈ pre, y.Name ≠ name) ∧ (∀ y ∈ post, y.Name ≠ name) := by
  simp only [names, List.map_append, List.map_cons] at hs
  rw [List.nodup_append] at hs
  obtain ⟨_, hcons, hdisj⟩ := hs
  rw [List.nodup_cons] at hcons
  refine ⟨fun y hy e => ?_, fun y hy e => ?_⟩
  · exact hdisj (List.mem_map_of_mem _ hy) (by rw [e, ← hx]; exact List.mem_cons_self _ _)
  · exact hcons.1 (by rw [hx, ← e]; exact List.mem_map_of_mem _ hy)

theorem scan_eq_neg_one_iff (name : String) (s : Directors) :
    scan name s 0 (-1) = -1 ↔ ∀ x ∈ s, x.Name ≠ name := by
  constructor
  · intro h
    by_contra hne
    push_neg at hne
    obtain ⟨pre, x, post, hs, hx, hpost⟩ := split_last name s hne
    rw [hs, scan_last name pre x post 0 (-1) hx hpost] at h
    omega
  · exact scan_absent name s 0 (-1)

theorem scan_split (name : String) (pre : Directors) (x : Director) (post : Directors)
    (hx : x.Name = name) (hpost : ∀ y ∈ post, y.Name ≠ name) :
    scan name (pre ++ x :: post) 0 (-1) = (pre.length : Int) := by
  rw [scan_last name pre x post 0 (-1) hx hpost, zero_add]

/-! ## Indexing at a split point -/

theorem index_split (pre : Directors) (x : Director) (post : Directors) :
    index (pre ++ x :: post) (pre.length : Int) = .ok x := by
  have hneg : ¬ ((pre.length : Int) < 0) := by omega
  have hget : (pre ++ x :: post)[pre.length]? = some x := by
    rw [List.getElem?_append_right (Nat.le_refl _)]
    simp
  simp only [index, if_neg hneg, Int.toNat_ofNat, hget]

theorem index_neg_one (s : Directors) : index s (-1) = .error (.indexOutOfRange (-1) s.length) := by
  simp [index]

theorem assign_split (pre : Directors) (x : Director) (post : Directors) (d : Director) :
    assign (pre ++ x :: post) (pre.length : Int) d = .ok (pre ++ d :: post) := by
  have hneg : ¬ ((pre.length : Int) < 0) := by omega
  simp [assign, hneg]

theorem removeAt_split (pre : Directors) (x : Director) (post : Directors) :
    removeAt (pre ++ x :: post) (pre.length : Int) = .ok (pre ++ post) := by
  have hneg : ¬ ((pre.length : Int) < 0) := by omega
  simp [removeAt, hneg]

/-! ## What each handler does, case by case -/

theorem getHandler_absent (s : Directors) (name : String) (h : ∀ x ∈ s, x.Name ≠ name) :
    getHandler (.ok s) name = ⟨[.getDirectors], .error (.indexOutOfRange (-1) s.length)⟩ := by
  simp [getHandler, getDirector, scan_absent name s 0 (-1) h, index_neg_one]

theorem getHandler_split (name : String) (pre : Directors) (x : Director) (post : Directors)
    (hx : x.Name = name) (hpost : ∀ y ∈ post, y.Name ≠ name) :
    getHandler (.ok (pre ++ x :: post)) name = ⟨[.getDirectors], .ok (.directorBody x)⟩ := by
  simp [getHandler, getDirector, scan_split name pre x post hx hpost, index_split]

theorem createHandler_empty (dflt : Nat) (d : Director) (fetch : Except GoError Directors)
    (save : Directors → Option GoError) (h : d.Name = "") :
    createHandler dflt (.ok d) fetch save = ⟨[], .error (.err (.hes (errNameNil dflt)))⟩ := by
  simp [createHandler, h]

theorem createHandler_taken (dflt : Nat) (d : Director) (s : Directors)
    (save : Directors → Option GoError) (hne : d.Name ≠ "") (h : ∃ x ∈ s, x.Name = d.Name) :
    createHandler dflt (.ok d) (.ok s) save
      = ⟨[.getDirectors], .error (.err (.hes (errDirectorExists dflt)))⟩ := by
  have hscan : scan d.Name s 0 (-1) ≠ -1 := by
    rw [Ne, scan_eq_neg_one_iff]
    push_neg
    exact h
  simp [createHandler, hne, getDirector, hscan]

theorem createHandler_fresh (dflt : Nat) (d : Director) (s : Directors)
    (save : Directors → Option GoError) (hne : d.Name ≠ "") (h : ∀ x ∈ s, x.Name ≠ d.Name) :
    createHandler dflt (.ok d) (.ok s) save
      = match save (s ++ [d]) with
        | some e => ⟨[.getDirectors, .save (s ++ [d])], .error (.err e)⟩
        | none => ⟨[.getDirectors, .save (s ++ [d])], .ok (.created d)⟩ := by
  simp [createHandler, hne, getDirector, scan_absent d.Name s 0 (-1) h]

theorem updateHandler_absent (dflt : Nat) (d0 : Director) (name : String) (s : Directors)
    (save : Directors → Option GoError) (h : ∀ x ∈ s, x.Name ≠ name) :
    updateHandler dflt (.ok d0) name (.ok s) save
      = ⟨[.getDirectors], .error (.err (.hes (errDirectorNotFound dflt)))⟩ := by
  simp [updateHandler, getDirector, scan_absent name s 0 (-1) h]

theorem updateHandler_split (dflt : Nat) (d0 : Director) (name : String)
    (pre : Directors) (x : Director) (post : Directors)
    (save : Directors → Option GoError) (hx : x.Name = name)
    (hpost : ∀ y ∈ post, y.Name ≠ name) :
    updateHandler dflt (.ok d0) name (.ok (pre ++ x :: post)) save
      = match save (pre ++ { d0 with Name := name } :: post) with
        | some e =>
          ⟨[.getDirectors, .save (pre ++ { d0 with Name := name } :: post)], .error (.err e)⟩
        | none =>
          ⟨[.getDirectors, .save (pre ++ { d0 with Name := name } :: post)], .ok .noContent⟩ := by
  have hi : ¬ ((pre.length : Int) = -1) := by omega
  simp [updateHandler, getDirector, scan_split name pre x post hx hpost, hi, assign_split]

theorem deleteHandler_absent (name : String) (s : Directors)
    (save : Directors → Option GoError) (h : ∀ x ∈ s, x.Name ≠ name) :
    deleteHandler name (.ok s) save = ⟨[.getDirectors], .ok .noContent⟩ := by
  simp [deleteHandler, getDirector, scan_absent name s 0 (-1) h]

theorem deleteHandler_split (name : String) (pre : Directors) (x : Director) (post : Directors)
    (save : Directors → Option GoError) (hx : x.Name = name)
    (hpost : ∀ y ∈ post, y.Name ≠ name) :
    deleteHandler name (.ok (pre ++ x :: post)) save
      = match save (pre ++ post) with
        | some e => ⟨[.getDirectors, .save (pre ++ post)], .error (.err e)⟩
        | none => ⟨[.getDirectors, .save (pre ++ post)], .ok .noContent⟩ := by
  have hi : ¬ ((pre.length : Int) = -1) := by omega
  simp [deleteHandler, getDirector, scan_split name pre x post hx hpost, hi, removeAt_split]

/-! ## The sort -/

theorem insertByLess_perm (d : Director) (s : Directors) : (insertByLess d s).Perm (d :: s) := by
  induction s with
  | nil => exact List.Perm.refl _
  | cons x xs ih =>
    unfold insertByLess
    split
    · exact (List.Perm.cons x ih).trans (List.Perm.swap d x xs)
    · exact List.Perm.refl _

theorem sortSort_perm (s : Directors) : (sortSort s).Perm s := by
  induction s with
  | nil => exact List.Perm.refl _
  | cons x xs ih => exact (insertByLess_perm x (sortSort xs)).trans (List.Perm.cons x ih)

theorem insertByLess_sorted (d : Director) (s : Directors)
    (hs : s.Pairwise (fun a b => a.Name ≤ b.Name)) :
    (insertByLess d s).Pairwise (fun a b => a.Name ≤ b.Name) := by
  induction s with
  | nil => simp [insertByLess]
  | cons x xs ih =>
    rw [List.pairwise_cons] at hs
    unfold insertByLess
    split
    · rename_i hlt
      have hxd : x.Name < d.Name := by simpa [Less] using hlt
      refine List.Pairwise.cons ?_ (ih hs.2)
      intro y hy
      rcases List.mem_cons.mp ((insertByLess_perm d xs).mem_iff.mp hy) with rfl | hmem
      · exact le_of_lt hxd
      · exact hs.1 y hmem
    · rename_i hlt
      have hdx : d.Name ≤ x.Name := by
        have : ¬ x.Name < d.Name := by simpa [Less] using hlt
        exact not_lt.mp this
      refine List.Pairwise.cons ?_ (List.Pairwise.cons hs.1 hs.2)
      intro y hy
      rcases List.mem_cons.mp hy with rfl | hmem
      · exact hdx
      · exact le_trans hdx (hs.1 y hmem)

theorem sortSort_sorted (s : Directors) :
    (sortSort s).Pairwise (fun a b => a.Name ≤ b.Name) := by
  induction s with
  | nil => exact List.Pairwise.nil
  | cons x xs ih => exact insertByLess_sorted x (sortSort xs) ih

/-- Entries of equal name keep the order they came in. -/
theorem sortSort_equal_names (f g : List (String × String)) :
    sortSort [⟨"a", f⟩, ⟨"a", g⟩] = [⟨"a", f⟩, ⟨"a", g⟩] := by
  simp [sortSort, insertByLess, Less]

/-- An entry of smaller name moves in front, past the entries it is `Less` than. -/
theorem sortSort_moves_smaller (f g h : List (String × String)) :
    sortSort [⟨"b", f⟩, ⟨"b", g⟩, ⟨"a", h⟩] = [⟨"a", h⟩, ⟨"b", f⟩, ⟨"b", g⟩] := by
  have hab : ("a" : String) < "b" := by
    rw [String.lt_iff_toList_lt]
    decide
  simp [sortSort, insertByLess, Less, hab]

/-! ## The guard -/

theorem authMid_one_part (auth user account pwd : String) (hne : auth ≠ "")
    (hsplit : stringsSplit auth = [user]) :
    authMid auth account pwd = .next ↔ account = user := by
  by_cases h : account = user <;> simp [authMid, hne, hsplit, Validate, h]

theorem authMid_two_parts (auth user pass account pwd : String) (hne : auth ≠ "")
    (hsplit : stringsSplit auth = [user, pass]) :
    authMid auth account pwd = .next ↔ account = user ∧ pwd = pass := by
  by_cases h : account = user <;> by_cases hp : pwd = pass <;>
    simp [authMid, hne, hsplit, Validate, h, hp]

theorem authMid_more_parts (auth user p1 p2 : String) (rest : List String)
    (account pwd : String) (hne : auth ≠ "")
    (hsplit : stringsSplit auth = user :: p1 :: p2 :: rest) :
    authMid auth account pwd = .next ↔ account = user := by
  by_cases h : account = user <;> simp [authMid, hne, hsplit, Validate, h]

/-! ## Helpers on collections -/

theorem absent_iff (name : String) (s : Directors) :
    name ∉ names s ↔ ∀ x ∈ s, x.Name ≠ name := by
  simp only [names, List.mem_map, not_exists, not_and, ne_eq]

theorem filter_absent (name : String) (s : Directors) (h : ∀ x ∈ s, x.Name ≠ name) :
    s.filter (fun x => decide (x.Name ≠ name)) = s := by
  rw [List.filter_eq_self]
  intro x hx
  simpa using h x hx

theorem filter_split (name : String) (pre : Directors) (x : Director) (post : Directors)
    (hx : x.Name = name) (hpre : ∀ y ∈ pre, y.Name ≠ name) (hpost : ∀ y ∈ post, y.Name ≠ name) :
    (pre ++ x :: post).filter (fun y => decide (y.Name ≠ name)) = pre ++ post := by
  rw [List.filter_append, List.filter_cons, filter_absent name pre hpre,
    filter_absent name post hpost]
  simp [hx]

theorem names_append_single (s : Directors) (d : Director) :
    names (s ++ [d]) = names s ++ [d.Name] := by
  simp [names]

theorem nodup_append_fresh (s : Directors) (d : Director) (hs : (names s).Nodup)
    (h : ∀ x ∈ s, x.Name ≠ d.Name) : (names (s ++ [d])).Nodup := by
  rw [names_append_single]
  refine List.Nodup.append hs (List.nodup_singleton _) ?_
  intro n hn hd
  rw [List.mem_singleton] at hd
  subst hd
  exact (absent_iff d.Name s).mpr h hn

theorem names_replace (name : String) (pre : Directors) (x d0 : Director) (post : Directors)
    (hx : x.Name = name) :
    names (pre ++ { d0 with Name := name } :: post) = names (pre ++ x :: post) := by
  simp [names, hx]

theorem nodup_remove (pre : Directors) (x : Director) (post : Directors)
    (hs : (names (pre ++ x :: post)).Nodup) : (names (pre ++ post)).Nodup := by
  have hsub : (pre ++ post).Sublist (pre ++ x :: post) :=
    List.Sublist.append (List.Sublist.refl pre) (List.sublist_cons_self x post)
  exact hs.sublist (hsub.map Director.Name)

/-! ## Saved collections keep distinct names -/

theorem createHandler_saves_distinct (dflt : Nat) (s : Directors) (hs : (names s).Nodup)
    (decoded : Except GoError Director) (save : Directors → Option GoError) (t : Directors)
    (ht : AgentCall.save t ∈ (createHandler dflt decoded (.ok s) save).calls) :
    (names t).Nodup := by
  cases decoded with
  | error e => simp [createHandler] at ht
  | ok d =>
    by_cases hempty : d.Name = ""
    · rw [createHandler_empty dflt d _ save hempty] at ht
      simp at ht
    · by_cases htaken : ∃ x ∈ s, x.Name = d.Name
      · rw [createHandler_taken dflt d s save hempty htaken] at ht
        simp at ht
      · push_neg at htaken
        rw [createHandler_fresh dflt d s save hempty htaken] at ht
        have : t = s ++ [d] := by
          cases hsave : save (s ++ [d]) <;> rw [hsave] at ht <;> simpa using ht
        rw [this]
        exact nodup_append_fresh s d hs htaken

theorem updateHandler_saves_distinct (dflt : Nat) (s : Directors) (hs : (names s).Nodup)
    (decoded : Except GoError Director) (name : String) (save : Directors → Option GoError)
    (t : Directors)
    (ht : AgentCall.save t ∈ (updateHandler dflt decoded name (.ok s) save).calls) :
    (names t).Nodup := by
  cases decoded with
  | error e => simp [updateHandler] at ht
  | ok d0 =>
    by_cases hex : ∃ x ∈ s, x.Name = name
    · obtain ⟨pre, x, post, rfl, hx, hpost⟩ := split_last name s hex
      rw [updateHandler_split dflt d0 name pre x post save hx hpost] at ht
      have : t = pre ++ { d0 with Name := name } :: post := by
        cases hsave : save (pre ++ { d0 with Name := name } :: post) <;>
          rw [hsave] at ht <;> simpa using ht
      rw [this, names_replace name pre x d0 post hx]
      exact hs
    · push_neg at hex
      rw [updateHandler_absent dflt d0 name s save hex] at ht
      simp at ht

theorem deleteHandler_saves_distinct (s : Directors) (hs : (names s).Nodup)
    (name : String) (save : Directors → Option GoError) (t : Directors)
    (ht : AgentCall.save t ∈ (deleteHandler name (.ok s) save).calls) :
    (names t).Nodup := by
  by_cases hex : ∃ x ∈ s, x.Name = name
  · obtain ⟨pre, x, post, rfl, hx, hpost⟩ := split_last name s hex
    rw [deleteHandler_split name pre x post save hx hpost] at ht
    have : t = pre ++ post := by
      cases hsave : save (pre ++ post) <;> rw [hsave] at ht <;> simpa using ht
    rw [this]
    exact nodup_remove pre x post hs
  · push_neg at hex
    rw [deleteHandler_absent name s save hex] at ht
    simp at ht

/-- What the agent holds after calls whose saved collections all have distinct
names has distinct names, if what it held before had. -/
theorem held_distinct (st : Directors) (calls : List AgentCall) (hst : (names st).Nodup)
    (h : ∀ t, AgentCall.save t ∈ calls → (names t).Nodup) : (names (held st calls)).Nodup := by
  induction calls generalizing st with
  | nil => exact hst
  | cons c cs ih =>
    cases c with
    | getDirectors =>
      exact ih st hst (fun t ht => h t (List.mem_cons_of_mem _ ht))
    | save u =>
      exact ih u (h u (List.mem_cons_self _ _)) (fun t ht => h t (List.mem_cons_of_mem _ ht))

/-! ## The stateful runs -/

theorem create_fresh (dflt : Nat) (s : Directors) (d : Director) (hne : d.Name ≠ "")
    (h : ∀ x ∈ s, x.Name ≠ d.Name) : create dflt s d = (s ++ [d], .ok (.created d)) := by
  simp [create, createHandler_fresh dflt d s saveOk hne h, saveOk, held]

theorem update_split (dflt : Nat) (d0 : Director) (name : String)
    (pre : Directors) (x : Director) (post : Directors) (hx : x.Name = name)
    (hpost : ∀ y ∈ post, y.Name ≠ name) :
    update dflt (pre ++ x :: post) name d0
      = (pre ++ { d0 with Name := name } :: post, .ok .noContent) := by
  simp [update, updateHandler_split dflt d0 name pre x post saveOk hx hpost, saveOk, held]

theorem delete_absent (name : String) (s : Directors) (h : ∀ x ∈ s, x.Name ≠ name) :
    delete s name = (s, .ok .noContent) := by
  simp [delete, deleteHandler_absent name s saveOk h, held]

theorem delete_split (name : String) (pre : Directors) (x : Director) (post : Directors)
    (hx : x.Name = name) (hpost : ∀ y ∈ post, y.Name ≠ name) :
    delete (pre ++ x :: post) name = (pre ++ post, .ok .noContent) := by
  simp [delete, deleteHandler_split name pre x post saveOk hx hpost, saveOk, held]

theorem delete_eq_filter (s : Directors) (name : String) (hs : (names s).Nodup) :
    delete s name = (s.filter (fun x => decide (x.Name ≠ name)), .ok .noContent) := by
  by_cases hex : ∃ x ∈ s, x.Name = name
  · obtain ⟨pre, x, post, rfl, hx, _⟩ := split_last name s hex
    obtain ⟨hpre, hpost⟩ := nodup_split name pre x post hs hx
    rw [delete_split name pre x post hx hpost, filter_split name pre x post hx hpre hpost]
  · push_neg at hex
    rw [delete_absent name s hex, filter_absent name s hex]

/-! ## The registry's properties -/

/-- C1: name uniqueness is kept by every mutating operation. When the fetched
collection has pairwise distinct names, every collection that the POST, PATCH
or DELETE handler hands to `Save` has pairwise distinct names, whatever the
decoded body, the path name and the answer of `Save`; and so has what the agent
holds after the operation. -/
theorem names_distinct_preserved (dflt : Nat) (s : Directors) (hs : (names s).Nodup)
    (decoded : Except GoError Director) (name : String)
    (save : Directors → Option GoError) :
    (∀ t, AgentCall.save t ∈ (createHandler dflt decoded (.ok s) save).calls →
        (names t).Nodup) ∧
    (∀ t, AgentCall.save t ∈ (updateHandler dflt decoded name (.ok s) save).calls →
        (names t).Nodup) ∧
    (∀ t, AgentCall.save t ∈ (deleteHandler name (.ok s) save).calls → (names t).Nodup) ∧
    (names (held s (createHandler dflt decoded (.ok s) save).calls)).Nodup ∧
    (names (held s (updateHandler dflt decoded name (.ok s) save).calls)).Nodup ∧
    (names (held s (deleteHandler name (.ok s) save).calls)).Nodup :=
  ⟨createHandler_saves_distinct dflt s hs decoded save,
   updateHandler_saves_distinct dflt s hs decoded name save,
   deleteHandler_saves_distinct s hs name save,
   held_distinct s _ hs (createHandler_saves_distinct dflt s hs decoded save),
   held_distinct s _ hs (updateHandler_saves_distinct dflt s hs decoded name save),
   held_distinct s _ hs (deleteHandler_saves_distinct s hs name save)⟩

theorem names_distinct_preserved_witness :
    (names [⟨"a", []⟩, ⟨"b", []⟩]).Nodup ∧
    (names (held [⟨"a", []⟩, ⟨"b", []⟩]
      (updateHandler 400 (.ok ⟨"a", [("weight", "5")]⟩) "b" (.ok [⟨"a", []⟩, ⟨"b", []⟩])
        saveOk).calls)).Nodup :=
  ⟨by decide,
   (names_distinct_preserved 400 [⟨"a", []⟩, ⟨"b", []⟩] (by decide)
      (.ok ⟨"a", [("weight", "5")]⟩) "b" saveOk).2.2.2.2.1⟩

/-- C2 (the code at an absent name): `GET /directors/:name` on a name that the
fetched collection does not carry indexes the collection at `-1`: the handler
panics with an index out of range and does not return `errDirectorNotFound`. -/
theorem get_absent_panics :
    getHandler (.ok [⟨"b1", []⟩]) "absent"
      = ⟨[.getDirectors], .error (.indexOutOfRange (-1) 1)⟩ ∧
    ∀ dflt : Nat, (getHandler (.ok [⟨"b1", []⟩]) "absent").out
      ≠ .error (.err (.hes (errDirectorNotFound dflt))) := by
  have h : getHandler (.ok [⟨"b1", []⟩]) "absent"
      = ⟨[.getDirectors], .error (.indexOutOfRange (-1) 1)⟩ :=
    getHandler_absent [⟨"b1", []⟩] "absent" (by decide)
  refine ⟨h, fun dflt => ?_⟩
  rw [h]
  simp

/-- C3: `POST /directors` with a non-empty name. If an entry of the fetched
collection carries the name, the handler returns `errDirectorExists` after the
fetch alone: `Save` is not called and the agent holds what it held. If no entry
carries it and `Save` succeeds, the handler answers `Created` with the entry
and the collection handed to `Save` is the fetched one with the entry appended. -/
theorem create_taken_or_fresh (dflt : Nat) (s : Directors) (d : Director)
    (save : Directors → Option GoError) (hne : d.Name ≠ "") :
    (d.Name ∈ names s →
      createHandler dflt (.ok d) (.ok s) save
        = ⟨[.getDirectors], .error (.err (.hes (errDirectorExists dflt)))⟩ ∧
      held s (createHandler dflt (.ok d) (.ok s) save).calls = s) ∧
    (d.Name ∉ names s → save (s ++ [d]) = none →
      createHandler dflt (.ok d) (.ok s) save
        = ⟨[.getDirectors, .save (s ++ [d])], .ok (.created d)⟩ ∧
      held s (createHandler dflt (.ok d) (.ok s) save).calls = s ++ [d]) := by
  constructor
  · intro hmem
    have hex : ∃ x ∈ s, x.Name = d.Name := by
      simpa [names] using hmem
    rw [createHandler_taken dflt d s save hne hex]
    exact ⟨rfl, rfl⟩
  · intro hfresh hsave
    rw [createHandler_fresh dflt d s save hne ((absent_iff d.Name s).mp hfresh), hsave]
    exact ⟨rfl, rfl⟩

theorem create_taken_or_fresh_witness :
    (createHandler 400 (.ok ⟨"b1", [("weight", "5")]⟩) (.ok [⟨"b1", []⟩]) saveOk
        = ⟨[.getDirectors], .error (.err (.hes (errDirectorExists 400)))⟩ ∧
      held [⟨"b1", []⟩]
        (createHandler 400 (.ok ⟨"b1", [("weight", "5")]⟩) (.ok [⟨"b1", []⟩]) saveOk).calls
        = [⟨"b1", []⟩]) ∧
    (createHandler 400 (.ok ⟨"b2", []⟩) (.ok [⟨"b1", []⟩]) saveOk
        = ⟨[.getDirectors, .save ([⟨"b1", []⟩] ++ [⟨"b2", []⟩])], .ok (.created ⟨"b2", []⟩)⟩ ∧
      held [⟨"b1", []⟩]
        (createHandler 400 (.ok ⟨"b2", []⟩) (.ok [⟨"b1", []⟩]) saveOk).calls
        = [⟨"b1", []⟩] ++ [⟨"b2", []⟩]) :=
  ⟨(create_taken_or_fresh 400 [⟨"b1", []⟩] ⟨"b1", [("weight", "5")]⟩ saveOk (by decide)).1
      (by decide),
   (create_taken_or_fresh 400 [⟨"b1", []⟩] ⟨"b2", []⟩ saveOk (by decide)).2
      (by decide) rfl⟩

/-- C4: round trip against an agent that returns what was last saved and whose
`Save` succeeds. For a director `d` with a non-empty name that the collection
does not carry and any body `d2`: `Create(d)` succeeds, then `Update(d.Name, d2)`
succeeds, then `Get(d.Name)` returns `d2` with its name replaced by `d.Name`.
(Distinctness of the names already held is not needed.) -/
theorem create_update_get (dflt : Nat) (s : Directors) (d d2 : Director)
    (hne : d.Name ≠ "") (hfresh : d.Name ∉ names s) :
    (create dflt s d).2 = .ok (.created d) ∧
    (update dflt (create dflt s d).1 d.Name d2).2 = .ok .noContent ∧
    get (update dflt (create dflt s d).1 d.Name d2).1 d.Name
      = .ok (.directorBody { d2 with Name := d.Name }) := by
  have hnil : ∀ y ∈ ([] : Directors), y.Name ≠ d.Name := fun y hy => by cases hy
  rw [create_fresh dflt s d hne ((absent_iff d.Name s).mp hfresh)]
  have hupd := update_split dflt d2 d.Name s d [] rfl hnil
  refine ⟨rfl, ?_, ?_⟩
  · show (update dflt (s ++ [d]) d.Name d2).2 = _
    rw [hupd]
  · show get (update dflt (s ++ [d]) d.Name d2).1 d.Name = _
    rw [hupd]
    show (getHandler (.ok (s ++ { d2 with Name := d.Name } :: [])) d.Name).out = _
    rw [getHandler_split d.Name s { d2 with Name := d.Name } [] rfl hnil]

theorem create_update_get_witness :
    (create 400 [⟨"a", []⟩] ⟨"b1", []⟩).2 = .ok (.created ⟨"b1", []⟩) ∧
    (update 400 (create 400 [⟨"a", []⟩] ⟨"b1", []⟩).1 "b1"
        ⟨"ignored", [("weight", "5")]⟩).2 = .ok .noContent ∧
    get (update 400 (create 400 [⟨"a", []⟩] ⟨"b1", []⟩).1 "b1"
        ⟨"ignored", [("weight", "5")]⟩).1 "b1"
      = .ok (.directorBody ⟨"b1", [("weight", "5")]⟩) :=
  create_update_get 400 [⟨"a", []⟩] ⟨"b1", []⟩ ⟨"ignored", [("weight", "5")]⟩
    (by decide) (by decide)

/-- C5: `DELETE /directors/:name` on a collection with pairwise distinct names.
When an entry carries the name and `Save` accepts the result, the handler hands
to `Save` the collection without that entry, the others in their order, and
answers `NoContent`. When no entry carries the name it answers `NoContent`
after the fetch alone. Against an agent that keeps what was saved, `Delete`
succeeds, leaves no entry with the name, and a second `Delete` of the same name
succeeds and changes nothing. -/
theorem delete_removes_idempotent (s : Directors) (name : String) (hs : (names s).Nodup) :
    (∀ save : Directors → Option GoError, name ∈ names s →
      save (s.filter (fun x => decide (x.Name ≠ name))) = none →
      deleteHandler name (.ok s) save
        = ⟨[.getDirectors, .save (s.filter (fun x => decide (x.Name ≠ name)))],
            .ok .noContent⟩) ∧
    (∀ save : Directors → Option GoError, name ∉ names s →
      deleteHandler name (.ok s) save = ⟨[.getDirectors], .ok .noContent⟩) ∧
    delete s name = (s.filter (fun x => decide (x.Name ≠ name)), .ok .noContent) ∧
    name ∉ names (delete s name).1 ∧
    delete (delete s name).1 name = ((delete s name).1, .ok .noContent) := by
  have hgone : ∀ x ∈ s.filter (fun x => decide (x.Name ≠ name)), x.Name ≠ name := by
    intro x hx
    simpa using (List.mem_filter.mp hx).2
  refine ⟨?_, ?_, delete_eq_filter s name hs, ?_, ?_⟩
  · intro save hmem hsave
    have hex : ∃ x ∈ s, x.Name = name := by simpa [names] using hmem
    obtain ⟨pre, x, post, rfl, hx, _⟩ := split_last name s hex
    obtain ⟨hpre, hpost⟩ := nodup_split name pre x post hs hx
    rw [filter_split name pre x post hx hpre hpost] at hsave ⊢
    rw [deleteHandler_split name pre x post save hx hpost, hsave]
  · intro save habs
    exact deleteHandler_absent name s save ((absent_iff name s).mp habs)
  · rw [delete_eq_filter s name hs]
    exact (absent_iff name _).mpr hgone
  · rw [delete_eq_filter s name hs]
    exact delete_absent name _ hgone

theorem delete_removes_idempotent_witness :
    (names [⟨"a", []⟩, ⟨"b", []⟩, ⟨"c", []⟩]).Nodup ∧
    deleteHandler "b" (.ok [⟨"a", []⟩, ⟨"b", []⟩, ⟨"c", []⟩]) saveOk
      = ⟨[.getDirectors, .save (([⟨"a", []⟩, ⟨"b", []⟩, ⟨"c", []⟩] : Directors).filter
          (fun x => decide (x.Name ≠ "b")))], .ok .noContent⟩ ∧
    deleteHandler "z" (.ok [⟨"a", []⟩, ⟨"b", []⟩, ⟨"c", []⟩]) saveOk
      = ⟨[.getDirectors], .ok .noContent⟩ ∧
    delete [⟨"a", []⟩, ⟨"b", []⟩, ⟨"c", []⟩] "b"
      = (([⟨"a", []⟩, ⟨"b", []⟩, ⟨"c", []⟩] : Directors).filter
          (fun x => decide (x.Name ≠ "b")), .ok .noContent) ∧
    delete (delete [⟨"a", []⟩, ⟨"b", []⟩, ⟨"c", []⟩] "b").1 "b"
      = ((delete [⟨"a", []⟩, ⟨"b", []⟩, ⟨"c", []⟩] "b").1, .ok .noContent) :=
  ⟨by decide,
   (delete_removes_idempotent [⟨"a", []⟩, ⟨"b", []⟩, ⟨"c", []⟩] "b" (by decide)).1 saveOk
      (by decide) rfl,
   (delete_removes_idempotent [⟨"a", []⟩, ⟨"b", []⟩, ⟨"c", []⟩] "z" (by decide)).2.1 saveOk
      (by decide),
   (delete_removes_idempotent [⟨"a", []⟩, ⟨"b", []⟩, ⟨"c", []⟩] "b" (by decide)).2.2.1,
   (delete_removes_idempotent [⟨"a", []⟩, ⟨"b", []⟩, ⟨"c", []⟩] "b" (by decide)).2.2.2.2⟩

/-- C6: `GET /directors` returns the whole collection sorted by name. For every
collection the agent returns, the `directors` value of the response is a
permutation of it (same entries, same multiplicities) whose names are in
non-decreasing order (with `Less` comparing names, as the spec has it). -/
theorem list_sorted_permutation (s : Directors) :
    listHandler (.ok s) = ⟨[.getDirectors], .ok (.directorsBody (sortSort s))⟩ ∧
    (sortSort s).Perm s ∧
    (sortSort s).Pairwise (fun a b => a.Name ≤ b.Name) :=
  ⟨rfl, sortSort_perm s, sortSort_sorted s⟩

/-- C7 (the code at a password holding a colon): with `AUTH` set to
`user:pa:ss` the credential splits into three parts, the test
`len(authInfo) == 2` fails, and the guard lets the account `user` through with
a password that is not the configured one. -/
theorem guard_accepts_wrong_password :
    stringsSplit "user:pa:ss" = ["user", "pa", "ss"] ∧
    Validate (stringsSplit "user:pa:ss") "user" "wrong" = some true ∧
    authMid "user:pa:ss" "user" "wrong" = .next := by
  refine ⟨by decide, by decide, by decide⟩

/-- C8: `PATCH /directors/:name` on a name that no entry of the fetched
collection carries returns `errDirectorNotFound` for every decoded body, after
the fetch alone: `Save` is not called and the agent holds what it held. -/
theorem update_absent_not_found (dflt : Nat) (s : Directors) (name : String)
    (d : Director) (save : Directors → Option GoError) (habs : name ∉ names s) :
    updateHandler dflt (.ok d) name (.ok s) save
      = ⟨[.getDirectors], .error (.err (.hes (errDirectorNotFound dflt)))⟩ ∧
    held s (updateHandler dflt (.ok d) name (.ok s) save).calls = s := by
  rw [updateHandler_absent dflt d name s save ((absent_iff name s).mp habs)]
  exact ⟨rfl, rfl⟩

theorem update_absent_not_found_witness :
    updateHandler 400 (.ok ⟨"x", [("weight", "5")]⟩) "absent" (.ok [⟨"b1", []⟩]) saveOk
      = ⟨[.getDirectors], .error (.err (.hes (errDirectorNotFound 400)))⟩ ∧
    held [⟨"b1", []⟩]
      (updateHandler 400 (.ok ⟨"x", [("weight", "5")]⟩) "absent" (.ok [⟨"b1", []⟩])
        saveOk).calls = [⟨"b1", []⟩] :=
  update_absent_not_found 400 [⟨"b1", []⟩] "absent" ⟨"x", [("weight", "5")]⟩ saveOk
    (by decide)

/-- C9: `POST /directors` with a body whose name is empty returns the
empty-name error whatever the agent would answer and whatever else the body
holds: the handler makes no agent call at all (no fetch, no `Save`), so the
agent holds what it held. -/
theorem create_empty_name_rejected (dflt : Nat) (d : Director) (hempty : d.Name = "")
    (fetch : Except GoError Directors) (save : Directors → Option GoError)
    (st : Directors) :
    createHandler dflt (.ok d) fetch save
      = ⟨[], .error (.err (.hes (errNameNil dflt)))⟩ ∧
    held st (createHandler dflt (.ok d) fetch save).calls = st := by
  rw [createHandler_empty dflt d fetch save hempty]
  exact ⟨rfl, rfl⟩

theorem create_empty_name_rejected_witness :
    createHandler 400 (.ok ⟨"", [("weight", "5")]⟩) (.ok [⟨"b1", []⟩]) saveOk
      = ⟨[], .error (.err (.hes (errNameNil 400)))⟩ ∧
    held [⟨"b1", []⟩]
      (createHandler 400 (.ok ⟨"", [("weight", "5")]⟩) (.ok [⟨"b1", []⟩]) saveOk).calls
      = [⟨"b1", []⟩] :=
  create_empty_name_rejected 400 ⟨"", [("weight", "5")]⟩ rfl (.ok [⟨"b1", []⟩]) saveOk
    [⟨"b1", []⟩]

/-- C10 (as stated, refuted): whatever status `hes.New` gives by default, the
errors that `Create` returns for an empty name and for a taken name and that
`Update` returns for an absent name do not carry 400, 409 and 404. -/
theorem error_statuses_not_400_409_404 :
    ¬ ∃ dflt : Nat, ∃ e1 e2 e3 : HesError,
      (createHandler dflt (.ok ⟨"", []⟩) (.ok []) saveOk).out = .error (.err (.hes e1)) ∧
      (createHandler dflt (.ok ⟨"b1", []⟩) (.ok [⟨"b1", []⟩]) saveOk).out
        = .error (.err (.hes e2)) ∧
      (updateHandler dflt (.ok ⟨"b1", []⟩) "b1" (.ok []) saveOk).out
        = .error (.err (.hes e3)) ∧
      e1.StatusCode = 400 ∧ e2.StatusCode = 409 ∧ e3.StatusCode = 404 := by
  rintro ⟨dflt, e1, e2, e3, h1, h2, h3, s1, s2, s3⟩
  rw [createHandler_empty dflt ⟨"", []⟩ _ saveOk rfl] at h1
  rw [createHandler_taken dflt ⟨"b1", []⟩ [⟨"b1", []⟩] saveOk (by decide) (by decide)] at h2
  rw [updateHandler_absent dflt ⟨"b1", []⟩ "b1" [] saveOk (by decide)] at h3
  simp only [Except.error.injEq, Fault.err.injEq, GoError.hes.injEq] at h1 h2 h3
  subst h1 h2
  simp only [errNameNil, errDirectorExists, hesNew] at s1 s2
  omega

/-- C10 (amended): every error the handlers build comes from `hes.New` with a
message alone, so it carries the library's default status 400. The error that
`Create` returns for an empty name carries 400; the error that `Create` returns
for a taken name and the error that `Update` returns for an absent name carry
400 as well, not 409 and 404. The three differ by their messages only. -/
theorem handler_errors_all_400 :
    (∀ (d : Director) (fetch : Except GoError Directors)
        (save : Directors → Option GoError), d.Name = "" →
      createHandler hesDefaultStatusCode (.ok d) fetch save
        = ⟨[], .error (.err (.hes ⟨400, "The director's name can't be nil"⟩))⟩) ∧
    (∀ (d : Director) (s : Directors) (save : Directors → Option GoError),
      d.Name ≠ "" → d.Name ∈ names s →
      createHandler hesDefaultStatusCode (.ok d) (.ok s) save
        = ⟨[.getDirectors], .error (.err (.hes ⟨400, "The director is exists"⟩))⟩) ∧
    (∀ (d : Director) (name : String) (s : Directors)
        (save : Directors → Option GoError), name ∉ names s →
      updateHandler hesDefaultStatusCode (.ok d) name (.ok s) save
        = ⟨[.getDirectors], .error (.err (.hes ⟨400, "The director is not found"⟩))⟩) := by
  refine ⟨?_, ?_, ?_⟩
  · intro d fetch save hempty
    rw [createHandler_empty hesDefaultStatusCode d fetch save hempty]
    rfl
  · intro d s save hne hmem
    have hex : ∃ x ∈ s, x.Name = d.Name := by
      simpa [names] using hmem
    rw [createHandler_taken hesDefaultStatusCode d s save hne hex]
    rfl
  · intro d name s save habs
    rw [updateHandler_absent hesDefaultStatusCode d name s save ((absent_iff name s).mp habs)]
    rfl

theorem handler_errors_all_400_witness :
    createHandler hesDefaultStatusCode (.ok ⟨"", [("weight", "5")]⟩) (.ok [⟨"b1", []⟩]) saveOk
      = ⟨[], .error (.err (.hes ⟨400, "The director's name can't be nil"⟩))⟩ ∧
    createHandler hesDefaultStatusCode (.ok ⟨"b1", []⟩) (.ok [⟨"b1", []⟩]) saveOk
      = ⟨[.getDirectors], .error (.err (.hes ⟨400, "The director is exists"⟩))⟩ ∧
    updateHandler hesDefaultStatusCode (.ok ⟨"b1", []⟩) "absent" (.ok [⟨"b1", []⟩]) saveOk
      = ⟨[.getDirectors], .error (.err (.hes ⟨400, "The director is not found"⟩))⟩ :=
  ⟨handler_errors_all_400.1 ⟨"", [("weight", "5")]⟩ (.ok [⟨"b1", []⟩]) saveOk rfl,
   handler_errors_all_400.2.1 ⟨"b1", []⟩ [⟨"b1", []⟩] saveOk (by decide) (by decide),
   handler_errors_all_400.2.2 ⟨"b1", []⟩ "absent" [⟨"b1", []⟩] saveOk (by decide)⟩

end Server
